import Mathlib

/-!
Shallow embedding of the tetroidz core game engine (the `useGameLogic`
hook: board, pieces, collision, merge, line clearing, SRS-style rotation,
7-bag supply, tick/lock/spawn state machine, hold, ghost projection and
hard drop).  Machine state held in React `useState`/`useRef` cells is
modelled as an explicit `GameState` record; each engine operation becomes
a pure function `GameState → GameState`.  Within a single invocation of a
callback, the React state variables captured by the closure keep the
values they had when the callback was created, so reads of `board` inside
`tick`/`hardDrop` refer to the pre-lock board; the embedding mirrors this
by reading the `board` field of the incoming state.  `Math.random` draws
are modelled by an oracle giving, for each bag refill and each loop index,
an arbitrary natural number (reduced modulo the index bound, matching
`Math.floor(Math.random() * (i + 1))`).
-/

namespace Tetroidz

def BOARD_WIDTH : Nat := 10

def BOARD_HEIGHT : Nat := 20

/-- A board cell: `none` is an empty cell (`null`), `some c` a color string. -/
abbrev Cell := Option String

/-- The board: rows of cells, row 0 at the top. -/
abbrev Board := List (List Cell)

/-- A piece shape: a small matrix of numbers, nonzero = set cell. -/
abbrev Shape := List (List Nat)

inductive PieceName where
  | I | O | T | L | J | S | Z
deriving DecidableEq, Repr, Fintype

/-- The canonical shape of each piece (the `PIECES` record). -/
def PIECES : PieceName → Shape
  | .I => [[1, 1, 1, 1]]
  | .O => [[1, 1], [1, 1]]
  | .T => [[1, 1, 1], [0, 1, 0]]
  | .L => [[1, 1, 1], [1, 0, 0]]
  | .J => [[1, 1, 1], [0, 0, 1]]
  | .S => [[0, 1, 1], [1, 1, 0]]
  | .Z => [[1, 1, 0], [0, 1, 1]]

/-- The display color of each piece (the `COLORS` record). -/
def COLORS : PieceName → String
  | .I => "#00FFFF"
  | .O => "#FFFF00"
  | .T => "#AA00FF"
  | .L => "#FF8C00"
  | .J => "#0000FF"
  | .S => "#00FF00"
  | .Z => "#FF0000"

structure Piece where
  shape : Shape
  color : String
  name : PieceName
deriving DecidableEq, Repr

/-- Live piece anchor and rotation index (the `Position` interface). -/
structure Position where
  x : Int
  y : Int
  rotation : Int
deriving DecidableEq, Repr

def mkPiece (n : PieceName) : Piece := ⟨PIECES n, COLORS n, n⟩

def emptyRow : List Cell := List.replicate BOARD_WIDTH none

/-- Function `createEmptyBoard`: `BOARD_HEIGHT` rows of `BOARD_WIDTH` empty cells. -/
def createEmptyBoard : Board := List.replicate BOARD_HEIGHT emptyRow

/-- Reading `board[y][x]`; out-of-range reads give `none` (they only occur
outside the guards of the source code). -/
def cellAt (b : Board) (y x : Int) : Cell :=
  if 0 ≤ y ∧ 0 ≤ x then (b.getD y.toNat []).getD x.toNat none else none

/-- The set cells of a shape in row-major order: the pairs `(dy, dx)` such
that `shape[dy][dx]` is nonzero, exactly the cells visited by the nested
`forEach`/`some` loops of `mergePiece` and `collision`. -/
def shapeCells (shape : Shape) : List (Nat × Nat) :=
  (shape.enum.map (fun dyRow =>
    dyRow.2.enum.filterMap (fun dxCell =>
      if dxCell.2 ≠ 0 then some (dyRow.1, dxCell.1) else none))).flatten

/-- The `collision` test: some set cell of the shape, placed at anchor
`(px, py)`, is out of the side/floor bounds, or overlaps a non-null board
cell (cells with `ny < 0` are never tested against the board). -/
def collision (b : Board) (shape : Shape) (px py : Int) : Bool :=
  (shapeCells shape).any fun dydx =>
    let nx : Int := px + dydx.2
    let ny : Int := py + dydx.1
    if nx < 0 ∨ (BOARD_WIDTH : Int) ≤ nx ∨ (BOARD_HEIGHT : Int) ≤ ny then true
    else if 0 ≤ ny ∧ cellAt b ny nx ≠ none then true
    else false

/-- Writing one cell of the board copy (`newBoard[y][x] = v`). -/
def setCell (b : Board) (y x : Nat) (v : Cell) : Board :=
  b.set y ((b.getD y []).set x v)

/-- One write of `mergePiece`: put `color` at `(py + dy, px + dx)` when
that position is inside the board bounds, else do nothing. -/
def mergeStep (px py : Int) (color : String) (acc : Board) (dydx : Nat × Nat) : Board :=
  let ny : Int := py + dydx.1
  let nx : Int := px + dydx.2
  if 0 ≤ ny ∧ ny < (BOARD_HEIGHT : Int) ∧ 0 ≤ nx ∧ nx < (BOARD_WIDTH : Int) then
    setCell acc ny.toNat nx.toNat (some color)
  else acc

/-- Function `mergePiece`: write every set cell of the shape that lands inside the
board bounds as `color`; out-of-bounds set cells are dropped. -/
def mergePiece (b : Board) (shape : Shape) (px py : Int) (color : String) : Board :=
  (shapeCells shape).foldl (mergeStep px py color) b

/-- The row-full test `row.every(cell => cell !== null)`. -/
def isFullRow (row : List Cell) : Bool := row.all (fun c => c ≠ none)

/-- Function `clearLines` as a pure function: the compacted board eventually stored
by `setBoard` (that many fresh empty rows prepended to the surviving rows)
together with the list of cleared row indices (top to bottom). -/
def clearLines (b : Board) : Board × List Nat :=
  let clearedRows := (b.enum.filter (fun p => isFullRow p.2)).map Prod.fst
  let newBoard := b.filter (fun row => !(isFullRow row))
  (List.replicate clearedRows.length emptyRow ++ newBoard, clearedRows)

/-- Function `rotateMatrix`: `dir = 1` builds, for each column index `i`, the
reversed `i`-th column; any other `dir` (the source type allows only `-1`)
builds for each `i` the column at index `numCols - 1 - i` and then
reverses the list of these rows. -/
def rotateMatrix (matrix : Shape) (dir : Int) : Shape :=
  let numCols := (matrix.headD []).length
  if dir = 1 then
    (List.range numCols).map (fun i => (matrix.map (fun row => row.getD i 0)).reverse)
  else
    ((List.range numCols).map (fun i =>
      matrix.map (fun row => row.getD (numCols - 1 - i) 0))).reverse

def commonKicks : List (Int × Int) :=
  [(0, 0), (-1, 0), (-1, 1), (0, -2), (-1, -2)]

def commonKicksAnti : List (Int × Int) :=
  [(0, 0), (1, 0), (1, 1), (0, -2), (1, -2)]

/-- The `WALL_KICKS` table, keyed by piece name and by the rotation
transition `f>t`; `none` models an absent key (the `O` piece's empty
record, or any transition outside the eight listed ones). -/
def WALL_KICKS (name : PieceName) (f t : Int) : Option (List (Int × Int)) :=
  match name with
  | .O => none
  | .I =>
    if f = 0 ∧ t = 1 then some [(0, 0), (-2, 0), (1, 0), (-2, -1), (1, 2)]
    else if f = 1 ∧ t = 0 then some [(0, 0), (2, 0), (-1, 0), (2, 1), (-1, -2)]
    else if f = 1 ∧ t = 2 then some [(0, 0), (-1, 0), (2, 0), (-1, 2), (2, -1)]
    else if f = 2 ∧ t = 1 then some [(0, 0), (1, 0), (-2, 0), (1, -2), (-2, 1)]
    else if f = 2 ∧ t = 3 then some [(0, 0), (2, 0), (-1, 0), (2, 1), (-1, -2)]
    else if f = 3 ∧ t = 2 then some [(0, 0), (-2, 0), (1, 0), (-2, -1), (1, 2)]
    else if f = 3 ∧ t = 0 then some [(0, 0), (1, 0), (-2, 0), (1, -2), (-2, 1)]
    else if f = 0 ∧ t = 3 then some [(0, 0), (-1, 0), (2, 0), (-1, 2), (2, -1)]
    else none
  | _ =>
    if (f = 0 ∧ t = 1) ∨ (f = 1 ∧ t = 2) ∨ (f = 2 ∧ t = 3) ∨ (f = 3 ∧ t = 0) then
      some commonKicks
    else if (f = 1 ∧ t = 0) ∨ (f = 2 ∧ t = 1) ∨ (f = 3 ∧ t = 2) ∨ (f = 0 ∧ t = 3) then
      some commonKicksAnti
    else none

/-- Swapping two list entries (`[pieces[i], pieces[j]] = [pieces[j], pieces[i]]`);
out-of-range indices leave the list unchanged (unreachable in the source). -/
def listSwap {α : Type} (l : List α) (i j : Nat) : List α :=
  match l.get? i, l.get? j with
  | some a, some b => (l.set i b).set j a
  | _, _ => l

/-- The Fisher-Yates loop of `getNextPiece`: for `i` from `l.length - 1`
down to `1`, swap entry `i` with entry `r i % (i + 1)`; the oracle value
`r i` stands for the `Math.random()` draw at loop index `i`. -/
def fyAux (r : Nat → Nat) : Nat → List PieceName → List PieceName
  | 0, l => l
  | Nat.succ k, l => fyAux r k (listSwap l (k + 1) (r (k + 1) % (k + 2)))

def shufflePieces (r : Nat → Nat) (l : List PieceName) : List PieceName :=
  fyAux r (l.length - 1) l

/-- The list `Object.keys(PIECES)` in declaration order. -/
def allPieceNames : List PieceName := [.I, .O, .T, .L, .J, .S, .Z]

/-- The `pieceBag` ref together with a count of refills performed so far
(used only to address the random oracle). -/
structure Bag where
  pieces : List PieceName
  refills : Nat
deriving DecidableEq, Repr

/-- Function `getNextPiece`: refill the bag with a shuffled permutation of the 7
names when it is empty, then pop the last element. -/
def getNextPiece (R : Nat → Nat → Nat) (bg : Bag) : Piece × Bag :=
  if bg.pieces.isEmpty then
    let pieces := shufflePieces (R bg.refills) allPieceNames
    (mkPiece (pieces.getLast?.getD .I), ⟨pieces.dropLast, bg.refills + 1⟩)
  else
    (mkPiece (bg.pieces.getLast?.getD .I), ⟨bg.pieces.dropLast, bg.refills⟩)

/-- The first `n` names drawn from the supply, with the bag state left
after these draws. -/
def drawNames (R : Nat → Nat → Nat) : Nat → Bag → List PieceName × Bag
  | 0, bg => ([], bg)
  | Nat.succ n, bg =>
    let pb := getNextPiece R bg
    let rest := drawNames R n pb.2
    (pb.1.name :: rest.1, rest.2)

/-- The engine state: every `useState` cell of `useGameLogic` that the
claims are about, plus the `pieceBag` ref. -/
structure GameState where
  board : Board
  currentPiece : Piece
  pos : Position
  nextPiece : Piece
  holdPiece : Option Piece
  holdUsed : Bool
  gameOver : Bool
  score : Nat
  linesCleared : Nat
  dropSpeed : Nat
  pieceBag : Bag
deriving DecidableEq

/-- The state effects of `clearLines`: store the (eventually compacted)
board and, when rows were cleared, add `100` points per row, bump the
lines-cleared total and, on crossing a decade, speed up the fall timer
(floored at `100` ms). -/
def applyClear (st : GameState) (cl : Board × List Nat) : GameState :=
  let st1 := { st with board := cl.1 }
  if 0 < cl.2.length then
    let newLinesCleared := st.linesCleared + cl.2.length
    { st1 with
      score := st.score + cl.2.length * 100
      linesCleared := newLinesCleared
      dropSpeed :=
        if st.linesCleared / 10 < newLinesCleared / 10 then
          max 100 (st.dropSpeed - 100)
        else st.dropSpeed }
  else st1

/-- Function `tick`: probe one row down; on collision, lock the piece (merge, clear
lines, release the hold lock), then test the next piece's spawn position
against the `board` captured by the closure (the pre-lock board) and
either end the game or spawn the next piece. -/
def tick (R : Nat → Nat → Nat) (st : GameState) : GameState :=
  if collision st.board st.currentPiece.shape st.pos.x (st.pos.y + 1) then
    let newBoard := mergePiece st.board st.currentPiece.shape st.pos.x st.pos.y
      st.currentPiece.color
    let st2 := { applyClear st (clearLines newBoard) with holdUsed := false }
    if collision st.board st.nextPiece.shape 3 0 then
      { st2 with gameOver := true }
    else
      let pb := getNextPiece R st2.pieceBag
      { st2 with
        currentPiece := st.nextPiece
        pos := ⟨3, 0, 0⟩
        nextPiece := pb.1
        pieceBag := pb.2 }
  else
    { st with pos := { st.pos with y := st.pos.y + 1 } }

/-- The fall timer (the `useEffect` scheduling `gameLoop`): when the
game-over flag is set the effect returns early without scheduling, so the
timer-invoked `tick` does not happen; otherwise it invokes `tick`. -/
def timerTick (R : Nat → Nat → Nat) (st : GameState) : GameState :=
  if st.gameOver then st else tick R st

/-- Function `move(dx)`: shift the piece horizontally unless the game is over or
the shifted position collides. -/
def move (st : GameState) (dx : Int) : GameState :=
  if ¬ st.gameOver ∧ ¬ collision st.board st.currentPiece.shape (st.pos.x + dx) st.pos.y then
    { st with pos := { st.pos with x := st.pos.x + dx } }
  else st

/-- The kick loop of `rotate`: try each `(kx, ky)` candidate in order at
`(x + kx, y - ky)`; commit the first non-colliding one (updating shape,
position and rotation index together), else leave the state unchanged. -/
def tryKicks (st : GameState) (rotatedShape : Shape) (t : Int) :
    List (Int × Int) → GameState
  | [] => st
  | k :: rest =>
    let nx := st.pos.x + k.1
    let ny := st.pos.y - k.2
    if collision st.board rotatedShape nx ny then tryKicks st rotatedShape t rest
    else
      { st with
        currentPiece := { st.currentPiece with shape := rotatedShape }
        pos := ⟨nx, ny, t⟩ }

/-- The kick-candidate list used by `rotate` for the transition out of the
current rotation index in direction `dir` (defaulting to `[(0,0)]` when
the table has no entry). -/
def rotateKicks (st : GameState) (dir : Int) : List (Int × Int) :=
  (WALL_KICKS st.currentPiece.name st.pos.rotation
    ((st.pos.rotation + dir + 4) % 4)).getD [(0, 0)]

/-- Function `rotate(dir)`: a no-op when the game is over or for the `O` piece;
otherwise rotate the shape and run the kick loop. -/
def rotate (st : GameState) (dir : Int) : GameState :=
  if st.gameOver then st
  else if st.currentPiece.name = .O then st
  else
    tryKicks st (rotateMatrix st.currentPiece.shape dir)
      ((st.pos.rotation + dir + 4) % 4) (rotateKicks st dir)

/-- Function `hold()`: a no-op when the game is over or the hold lock is engaged;
otherwise stash the current piece with its canonical shape, promoting the
next piece (drawing a fresh one) or swapping with the held piece, reset
the position to the spawn anchor and engage the hold lock. -/
def hold (R : Nat → Nat → Nat) (st : GameState) : GameState :=
  if st.gameOver ∨ st.holdUsed then st
  else
    let st1 :=
      match st.holdPiece with
      | none =>
        let pb := getNextPiece R st.pieceBag
        { st with
          holdPiece := some { st.currentPiece with shape := PIECES st.currentPiece.name }
          currentPiece := st.nextPiece
          nextPiece := pb.1
          pieceBag := pb.2 }
      | some hp =>
        { st with
          currentPiece := hp
          holdPiece := some { st.currentPiece with shape := PIECES st.currentPiece.name } }
    { st1 with pos := ⟨3, 0, 0⟩, holdUsed := true }

/-- Function `restart()`: reset every state cell to its initial value and draw a
fresh current and next piece from an emptied bag. -/
def restart (R : Nat → Nat → Nat) (st : GameState) : GameState :=
  let pb1 := getNextPiece R ⟨[], st.pieceBag.refills⟩
  let pb2 := getNextPiece R pb1.2
  { board := createEmptyBoard
    currentPiece := pb1.1
    pos := ⟨3, 0, 0⟩
    nextPiece := pb2.1
    holdPiece := none
    holdUsed := false
    gameOver := false
    score := 0
    linesCleared := 0
    dropSpeed := 1000
    pieceBag := pb2.2 }

/-- The descent loop of `ghostY` (`while (!collision(shape, x, y + 1)) y++`)
with an explicit fuel; `none` means the fuel ran out before the loop
exited. -/
def ghostYAux (b : Board) (shape : Shape) (x : Int) : Nat → Int → Option Int
  | 0, _ => none
  | Nat.succ n, y =>
    if collision b shape x (y + 1) then some y else ghostYAux b shape x n (y + 1)

/-- Fuel sufficient for the descent loop of any shape with a set cell
starting at row `y` (proved below): once `y + 1 + dy` reaches the floor
the collision test is true. -/
def ghostFuel (y : Int) : Nat := ((BOARD_HEIGHT : Int) - y).toNat + 2

/-- Function `ghostY()`: the resting row of the current piece. -/
def ghostY (st : GameState) : Int :=
  (ghostYAux st.board st.currentPiece.shape st.pos.x (ghostFuel st.pos.y) st.pos.y).getD
    st.pos.y

/-- Function `hardDrop()`: a no-op when the game is over; otherwise merge the piece
at its ghost row and run the same clear / spawn / game-over sequence as
the locking branch of `tick` (the spawn test again reads the pre-lock
`board` captured by the closure). -/
def hardDrop (R : Nat → Nat → Nat) (st : GameState) : GameState :=
  if st.gameOver then st
  else
    let dropY := ghostY st
    let newBoard := mergePiece st.board st.currentPiece.shape st.pos.x dropY
      st.currentPiece.color
    let st2 := { applyClear st (clearLines newBoard) with holdUsed := false }
    if collision st.board st.nextPiece.shape 3 0 then
      { st2 with gameOver := true }
    else
      let pb := getNextPiece R st2.pieceBag
      { st2 with
        currentPiece := st.nextPiece
        nextPiece := pb.1
        pos := ⟨3, 0, 0⟩
        pieceBag := pb.2 }

/-! ### Spec-side predicates and concrete fixture states -/

/-- The out-of-bounds-or-occupied test applied to one set cell. -/
def cellBlocked (b : Board) (px py : Int) (dy dx : Nat) : Prop :=
  px + (dx : Int) < 0 ∨ (BOARD_WIDTH : Int) ≤ px + (dx : Int) ∨
    (BOARD_HEIGHT : Int) ≤ py + (dy : Int) ∨
    (0 ≤ py + (dy : Int) ∧ cellAt b (py + (dy : Int)) (px + (dx : Int)) ≠ none)

/-- A full row in the spec's words: every cell is occupied. -/
def rowFull (row : List Cell) : Prop := ∀ c ∈ row, c ≠ none

instance rowFullDecidable (row : List Cell) : Decidable (rowFull row) :=
  inferInstanceAs (Decidable (∀ c ∈ row, c ≠ none))

/-- Cell of a board at Nat-indexed row and column. -/
def natCell (b : Board) (r c : Nat) : Cell := (b.getD r []).getD c none

/-- A constant random oracle (any oracle works for the concrete runs). -/
def R0 : Nat → Nat → Nat := fun _ _ => 0

/-- A board whose only occupied cell is at row 2, column 4. -/
def stackBoard : Board := createEmptyBoard.set 2 (emptyRow.set 4 (some "#FF0000"))

/-- A game-over state used as the concrete witness input. -/
def overState : GameState :=
  { board := createEmptyBoard
    currentPiece := mkPiece .T
    pos := ⟨3, 0, 0⟩
    nextPiece := mkPiece .I
    holdPiece := none
    holdUsed := false
    gameOver := true
    score := 0
    linesCleared := 0
    dropSpeed := 1000
    pieceBag := ⟨[], 0⟩ }

/-- A freshly spawned `T` piece on an empty board. -/
def spawnState : GameState :=
  { board := createEmptyBoard
    currentPiece := mkPiece .T
    pos := ⟨3, 0, 0⟩
    nextPiece := mkPiece .I
    holdPiece := none
    holdUsed := false
    gameOver := false
    score := 0
    linesCleared := 0
    dropSpeed := 1000
    pieceBag := ⟨[], 0⟩ }

/-- A state about to lock its `O` piece at rows 0-1, columns 4-5, right on
top of the occupied cell of `stackBoard`, with another `O` queued next. -/
def lockState : GameState :=
  { board := stackBoard
    currentPiece := mkPiece .O
    pos := ⟨4, 0, 0⟩
    nextPiece := mkPiece .O
    holdPiece := none
    holdUsed := false
    gameOver := false
    score := 0
    linesCleared := 0
    dropSpeed := 1000
    pieceBag := ⟨[], 0⟩ }

/-- Equality of two engine states on every component except the live
position: board, pieces, hold slot and lock, game-over flag, score, lines,
speed and bag (stated by overwriting the position on both sides). -/
def eqExceptPos (s1 s2 : GameState) : Prop :=
  { s1 with pos := ⟨3, 0, 0⟩ } = { s2 with pos := ⟨3, 0, 0⟩ }

/-! ### Basic lemmas about shapes and the collision test -/

/-- A set cell of the shape at row `dy`, column `dx` (the spec's notion of
"some set cell of the shape at local offset `(dx, dy)`"). -/
def shapeHasCell (shape : Shape) (dy dx : Nat) : Prop :=
  ∃ row, shape[dy]? = some row ∧ ∃ c, row[dx]? = some c ∧ c ≠ 0

theorem mem_shapeCells {shape : Shape} {dy dx : Nat} :
    (dy, dx) ∈ shapeCells shape ↔ shapeHasCell shape dy dx := by
  constructor
  · intro h
    obtain ⟨l, hl, hmem⟩ := List.mem_flatten.mp h
    obtain ⟨p, hp, rfl⟩ := List.mem_map.mp hl
    obtain ⟨q, hq, hsome⟩ := List.mem_filterMap.mp hmem
    by_cases hq2 : q.2 = 0
    · simp [hq2] at hsome
    · simp only [ne_eq, hq2, not_false_eq_true, if_true, Option.some.injEq,
        Prod.mk.injEq] at hsome
      obtain ⟨h1, h2⟩ := hsome
      refine ⟨p.2, ?_, q.2, ?_, hq2⟩
      · rw [← h1]
        exact List.mem_enum_iff_getElem?.mp hp
      · rw [← h2]
        exact List.mem_enum_iff_getElem?.mp hq
  · rintro ⟨row, hrow, c, hc, hne⟩
    refine List.mem_flatten.mpr ⟨_, List.mem_map.mpr ⟨(dy, row), ?_, rfl⟩, ?_⟩
    · exact List.mem_enum_iff_getElem?.mpr hrow
    · exact List.mem_filterMap.mpr ⟨(dx, c), List.mem_enum_iff_getElem?.mpr hc, by simp [hne]⟩

theorem collision_eq_true_iff {b : Board} {shape : Shape} {px py : Int} :
    collision b shape px py = true ↔
      ∃ dy dx : Nat, shapeHasCell shape dy dx ∧ cellBlocked b px py dy dx := by
  simp only [collision, List.any_eq_true]
  constructor
  · rintro ⟨⟨dy, dx⟩, hmem, hbody⟩
    refine ⟨dy, dx, mem_shapeCells.mp hmem, ?_⟩
    by_cases h1 : px + (dx : Int) < 0 ∨ (BOARD_WIDTH : Int) ≤ px + (dx : Int) ∨
        (BOARD_HEIGHT : Int) ≤ py + (dy : Int)
    · unfold cellBlocked; tauto
    · simp only [h1, if_false] at hbody
      by_cases h2 : 0 ≤ py + (dy : Int) ∧ cellAt b (py + (dy : Int)) (px + (dx : Int)) ≠ none
      · unfold cellBlocked; tauto
      · simp [h2] at hbody
  · rintro ⟨dy, dx, hcell, hblk⟩
    refine ⟨(dy, dx), mem_shapeCells.mpr hcell, ?_⟩
    unfold cellBlocked at hblk
    by_cases h1 : px + (dx : Int) < 0 ∨ (BOARD_WIDTH : Int) ≤ px + (dx : Int) ∨
        (BOARD_HEIGHT : Int) ≤ py + (dy : Int)
    · simp [h1]
    · have h2 : 0 ≤ py + (dy : Int) ∧ cellAt b (py + (dy : Int)) (px + (dx : Int)) ≠ none := by
        tauto
      simp [h1, h2]

/-- C5: the collision test returns true exactly when some set cell of the
shape at offset `(dx, dy)` lands with `px + dx` outside `[0, 10)` or
`py + dy ≥ 20`, or lands on an occupied board cell at `py + dy ≥ 0` (so
set cells above the board never collide against board contents); for a
shape with no set cell it returns false at every position. -/
theorem collision_spec (b : Board) (shape : Shape) (px py : Int) :
    (collision b shape px py = true ↔
      ∃ dy dx : Nat, shapeHasCell shape dy dx ∧
        (px + (dx : Int) < 0 ∨ (BOARD_WIDTH : Int) ≤ px + (dx : Int) ∨
          (BOARD_HEIGHT : Int) ≤ py + (dy : Int) ∨
          (0 ≤ py + (dy : Int) ∧ cellAt b (py + (dy : Int)) (px + (dx : Int)) ≠ none))) ∧
    ((∀ dy dx : Nat, ¬ shapeHasCell shape dy dx) → collision b shape px py = false) := by
  constructor
  · exact collision_eq_true_iff
  · intro hempty
    rcases Bool.eq_false_or_eq_true (collision b shape px py) with h | h
    · obtain ⟨dy, dx, hcell, -⟩ := collision_eq_true_iff.mp h
      exact absurd hcell (hempty dy dx)
    · exact h

/-- Witness for C5 at a concrete all-empty shape and position. -/
theorem collision_spec_witness :
    (∀ dy dx : Nat, ¬ shapeHasCell ([] : Shape) dy dx) ∧
      collision createEmptyBoard ([] : Shape) 3 0 = false := by
  have hempty : ∀ dy dx : Nat, ¬ shapeHasCell ([] : Shape) dy dx := by
    rintro dy dx ⟨row, hrow, -⟩
    simp at hrow
  exact ⟨hempty, (collision_spec createEmptyBoard [] 3 0).2 hempty⟩

/-! ### Line clearing -/

theorem isFullRow_iff (row : List Cell) : isFullRow row = true ↔ rowFull row := by
  simp [isFullRow, rowFull, List.all_eq_true]

theorem isFullRow_eq (row : List Cell) : isFullRow row = decide (rowFull row) := by
  rw [Bool.eq_iff_iff, decide_eq_true_eq]
  exact isFullRow_iff row

theorem mem_clearedRows {b : Board} {i : Nat} :
    i ∈ (clearLines b).2 ↔ ∃ row, b[i]? = some row ∧ rowFull row := by
  simp only [clearLines]
  constructor
  · intro h
    obtain ⟨p, hp, rfl⟩ := List.mem_map.mp h
    obtain ⟨hpe, hpf⟩ := List.mem_filter.mp hp
    refine ⟨p.2, List.mem_enum_iff_getElem?.mp hpe, ?_⟩
    rw [isFullRow_eq] at hpf
    exact of_decide_eq_true hpf
  · rintro ⟨row, hrow, hfull⟩
    refine List.mem_map.mpr ⟨(i, row), List.mem_filter.mpr
      ⟨List.mem_enum_iff_getElem?.mpr hrow, ?_⟩, rfl⟩
    rw [isFullRow_eq]
    exact decide_eq_true hfull

theorem length_filter_enumFrom {α : Type} (p : α → Bool) :
    ∀ (l : List α) (n : Nat),
      ((List.enumFrom n l).filter (fun q => p q.2)).length = (l.filter p).length
  | [], _ => rfl
  | a :: t, n => by
    show ((List.enumFrom n (a :: t)).filter (fun q => p q.2)).length = _
    rw [List.enumFrom_cons, List.filter_cons, List.filter_cons]
    rcases h : p a with _ | _
    · simpa [h] using length_filter_enumFrom p t (n + 1)
    · simpa [h] using length_filter_enumFrom p t (n + 1)

theorem clearedRows_length (b : Board) :
    (clearLines b).2.length = (b.filter (fun row => isFullRow row)).length := by
  simp only [clearLines, List.length_map]
  exact length_filter_enumFrom _ b 0

theorem filter_length_split {α : Type} (p : α → Bool) :
    ∀ l : List α, (l.filter p).length + (l.filter (fun a => !(p a))).length = l.length
  | [] => rfl
  | a :: t => by
    have ih := filter_length_split p t
    rw [List.filter_cons, List.filter_cons]
    cases h : p a <;> simp [h] <;> omega

/-- C6: `clearLines` returns exactly the indices of the rows in which every
cell is occupied, in ascending (top-to-bottom) order; the resulting board
is that many empty rows prepended to the non-full rows of the input in
their original relative order, and has again 20 rows of 10 cells; on a
board with zero full rows it returns the board unchanged with an empty
cleared-index list. -/
theorem clearLines_spec (b : Board) (h20 : b.length = 20)
    (hw : ∀ row ∈ b, row.length = 10) :
    (∀ i : Nat, i ∈ (clearLines b).2 ↔ ∃ row, b[i]? = some row ∧ rowFull row)
  ∧ (clearLines b).2.Pairwise (· < ·)
  ∧ (clearLines b).1 =
      List.replicate (clearLines b).2.length (List.replicate 10 none) ++
        b.filter (fun row => decide (¬ rowFull row))
  ∧ (clearLines b).1.length = 20
  ∧ (∀ row ∈ (clearLines b).1, row.length = 10)
  ∧ ((∀ row ∈ b, ¬ rowFull row) → clearLines b = (b, [])) := by
  refine ⟨fun i => mem_clearedRows, ?_, ?_, ?_, ?_, ?_⟩
  · have hsub : ((b.enum.filter (fun p => isFullRow p.2)).map Prod.fst).Sublist
        (b.enum.map Prod.fst) :=
      (b.enum.filter_sublist (p := fun p => isFullRow p.2)).map Prod.fst
    rw [List.enum_map_fst] at hsub
    exact (List.pairwise_lt_range b.length).sublist hsub
  · have hfc : b.filter (fun row => !(isFullRow row)) =
        b.filter (fun row => decide (¬ rowFull row)) := by
      apply List.filter_congr
      intro row _
      rw [isFullRow_eq, decide_not]
    show List.replicate _ emptyRow ++ b.filter (fun row => !(isFullRow row)) = _
    rw [hfc]
    rfl
  · have hlen : (clearLines b).1.length =
        (clearLines b).2.length + (b.filter (fun row => !(isFullRow row))).length := by
      simp [clearLines]
    rw [hlen, clearedRows_length]
    rw [← filter_length_split (fun row => isFullRow row) b] at h20
    omega
  · intro row hrow
    simp only [clearLines] at hrow
    rcases List.mem_append.mp hrow with h | h
    · have := List.eq_of_mem_replicate h
      subst this
      simp [emptyRow, BOARD_WIDTH]
    · exact hw row (List.mem_of_mem_filter h)
  · intro hnone
    have h1 : b.enum.filter (fun p => isFullRow p.2) = [] := by
      rw [List.filter_eq_nil_iff]
      intro p hp
      have hmem : p.2 ∈ b := List.getElem?_mem (List.mem_enum_iff_getElem?.mp hp)
      simp only [isFullRow_eq, decide_eq_true_eq]
      exact hnone p.2 hmem
    have h2 : b.filter (fun row => !(isFullRow row)) = b := by
      rw [List.filter_eq_self]
      intro row hrow
      simp only [isFullRow_eq, Bool.not_eq_true', decide_eq_false_iff_not]
      exact hnone row hrow
    simp [clearLines, h1, h2]

/-- Witness for C6 at a concrete 20×10 board. -/
theorem clearLines_spec_witness :
    (createEmptyBoard.length = 20 ∧ ∀ row ∈ createEmptyBoard, row.length = 10)
  ∧ (∀ i : Nat, i ∈ (clearLines createEmptyBoard).2 ↔
        ∃ row, createEmptyBoard[i]? = some row ∧ rowFull row) := by
  have h20 : createEmptyBoard.length = 20 := by decide
  have hw : ∀ row ∈ createEmptyBoard, row.length = 10 := by decide
  exact ⟨⟨h20, hw⟩, (clearLines_spec createEmptyBoard h20 hw).1⟩


/-! ### Merge -/

theorem cellAt_natCast (b : Board) (r c : Nat) :
    cellAt b (r : Int) (c : Int) = natCell b r c := by
  simp [cellAt, natCell]

theorem natCell_setCell (b : Board) (y x : Nat) (v : Cell) (r c : Nat)
    (hy : y < b.length) (hx : x < (b.getD y []).length) :
    natCell (setCell b y x v) r c = if y = r ∧ x = c then v else natCell b r c := by
  unfold natCell setCell
  simp only [List.getD_eq_getElem?_getD]
  rw [List.getElem?_set]
  by_cases h1 : y = r
  · subst h1
    simp only [if_pos rfl, hy, if_true, Option.getD_some]
    rw [List.getElem?_set]
    by_cases h2 : x = c
    · subst h2
      rw [← List.getD_eq_getElem?_getD, if_pos hx]
      simp
    · simp [h2]
  · simp [h1]

theorem mergeStep_length (px py : Int) (color : String) (b : Board) (p : Nat × Nat) :
    (mergeStep px py color b p).length = b.length := by
  simp only [mergeStep, setCell]
  split
  · rw [List.length_set]
  · rfl

theorem setCell_rows (b : Board) (y x : Nat) (v : Cell)
    (hw : ∀ row ∈ b, row.length = 10) :
    ∀ row ∈ setCell b y x v, row.length = 10 := by
  intro row hrow
  unfold setCell at hrow
  by_cases hy : y < b.length
  · rcases List.mem_or_eq_of_mem_set hrow with h | h
    · exact hw row h
    · subst h
      rw [List.length_set, List.getD_eq_getElem _ _ hy]
      exact hw _ (List.getElem_mem hy)
  · rw [List.set_eq_of_length_le (Nat.le_of_not_lt hy)] at hrow
    exact hw row hrow

theorem mergeStep_rows (px py : Int) (color : String) (b : Board) (p : Nat × Nat)
    (hw : ∀ row ∈ b, row.length = 10) :
    ∀ row ∈ mergeStep px py color b p, row.length = 10 := by
  intro row hrow
  simp only [mergeStep] at hrow
  split at hrow
  · exact setCell_rows b _ _ _ hw row hrow
  · exact hw row hrow

theorem getD_mem_of_lt {b : Board} {i : Nat} (h : i < b.length) : b.getD i [] ∈ b := by
  rw [List.getD_eq_getElem _ _ h]
  exact List.getElem_mem h

theorem foldMerge_natCell (px py : Int) (color : String) :
    ∀ (cells : List (Nat × Nat)) (b : Board), b.length = 20 →
      (∀ row ∈ b, row.length = 10) → ∀ r c : Nat, r < 20 → c < 10 →
      natCell (cells.foldl (mergeStep px py color) b) r c =
        if ∃ p ∈ cells, py + (p.1 : Int) = (r : Int) ∧ px + (p.2 : Int) = (c : Int)
        then some color else natCell b r c := by
  intro cells
  induction cells with
  | nil =>
    intro b h20 hw r c hr hc
    simp
  | cons p rest ih =>
    intro b h20 hw r c hr hc
    rw [List.foldl_cons]
    have h20' : (mergeStep px py color b p).length = 20 := by
      rw [mergeStep_length]; exact h20
    have hw' := mergeStep_rows px py color b p hw
    rw [ih (mergeStep px py color b p) h20' hw' r c hr hc]
    by_cases hp : py + (p.1 : Int) = (r : Int) ∧ px + (p.2 : Int) = (c : Int)
    · have hcond : ∃ q ∈ p :: rest,
          py + (q.1 : Int) = (r : Int) ∧ px + (q.2 : Int) = (c : Int) :=
        ⟨p, List.mem_cons_self p rest, hp⟩
      rw [if_pos hcond]
      by_cases hrest : ∃ q ∈ rest,
          py + (q.1 : Int) = (r : Int) ∧ px + (q.2 : Int) = (c : Int)
      · rw [if_pos hrest]
      · rw [if_neg hrest]
        obtain ⟨hp1, hp2⟩ := hp
        have hbnd : 0 ≤ py + (p.1 : Int) ∧ py + (p.1 : Int) < (BOARD_HEIGHT : Int) ∧
            0 ≤ px + (p.2 : Int) ∧ px + (p.2 : Int) < (BOARD_WIDTH : Int) := by
          rw [hp1, hp2]
          refine ⟨Int.natCast_nonneg r, ?_, Int.natCast_nonneg c, ?_⟩
          · show (r : Int) < ((20 : Nat) : Int)
            exact_mod_cast hr
          · show (c : Int) < ((10 : Nat) : Int)
            exact_mod_cast hc
        simp only [mergeStep, if_pos hbnd]
        have hyr : (py + (p.1 : Int)).toNat = r := by rw [hp1]; exact Int.toNat_natCast r
        have hxc : (px + (p.2 : Int)).toNat = c := by rw [hp2]; exact Int.toNat_natCast c
        have hylt : (py + (p.1 : Int)).toNat < b.length := by rw [hyr, h20]; exact hr
        have hxlt : (px + (p.2 : Int)).toNat <
            (b.getD (py + (p.1 : Int)).toNat []).length := by
          rw [hxc, hw _ (getD_mem_of_lt hylt)]
          exact hc
        rw [natCell_setCell b _ _ _ r c hylt hxlt, if_pos ⟨hyr, hxc⟩]
    · have hiff : (∃ q ∈ p :: rest,
          py + (q.1 : Int) = (r : Int) ∧ px + (q.2 : Int) = (c : Int)) ↔
          (∃ q ∈ rest, py + (q.1 : Int) = (r : Int) ∧ px + (q.2 : Int) = (c : Int)) := by
        constructor
        · rintro ⟨q, hq, hQ⟩
          rcases List.mem_cons.mp hq with h | h
          · subst h; exact absurd hQ hp
          · exact ⟨q, h, hQ⟩
        · rintro ⟨q, hq, hQ⟩
          exact ⟨q, List.mem_cons_of_mem p hq, hQ⟩
      have hstep : natCell (mergeStep px py color b p) r c = natCell b r c := by
        simp only [mergeStep]
        split
        · rename_i hin
          have hBH : ((BOARD_HEIGHT : Nat) : Int) = 20 := rfl
          have hBW : ((BOARD_WIDTH : Nat) : Int) = 10 := rfl
          rw [hBH, hBW] at hin
          have hylt : (py + (p.1 : Int)).toNat < b.length := by
            rw [h20]
            omega
          have hxlt : (px + (p.2 : Int)).toNat <
              (b.getD (py + (p.1 : Int)).toNat []).length := by
            rw [hw _ (getD_mem_of_lt hylt)]
            omega
          rw [natCell_setCell b _ _ _ r c hylt hxlt]
          rw [if_neg]
          rintro ⟨h1, h2⟩
          exact hp ⟨by omega, by omega⟩
        · rfl
      rw [hstep]
      by_cases hrest : ∃ q ∈ rest,
          py + (q.1 : Int) = (r : Int) ∧ px + (q.2 : Int) = (c : Int)
      · rw [if_pos hrest, if_pos (hiff.mpr hrest)]
      · rw [if_neg hrest, if_neg (fun h => hrest (hiff.mp h))]

/-- C9: `mergePiece` returns a board of unchanged dimensions in which every
cell reachable by a set cell of the shape (inside the 20×10 bounds) holds
the given color and every other cell equals the corresponding cell of the
input board; set cells falling outside the bounds are dropped without
effect (the input board itself is untouched, `mergePiece` being a pure
function of it). -/
theorem mergePiece_spec (b : Board) (shape : Shape) (px py : Int) (color : String)
    (h20 : b.length = 20) (hw : ∀ row ∈ b, row.length = 10) :
    (mergePiece b shape px py color).length = 20
  ∧ (∀ row ∈ mergePiece b shape px py color, row.length = 10)
  ∧ (∀ r c : Nat, r < 20 → c < 10 →
      ((∃ dy dx : Nat, shapeHasCell shape dy dx ∧
          py + (dy : Int) = (r : Int) ∧ px + (dx : Int) = (c : Int)) →
        cellAt (mergePiece b shape px py color) (r : Int) (c : Int) = some color)
      ∧ ((¬ ∃ dy dx : Nat, shapeHasCell shape dy dx ∧
          py + (dy : Int) = (r : Int) ∧ px + (dx : Int) = (c : Int)) →
        cellAt (mergePiece b shape px py color) (r : Int) (c : Int) = cellAt b r c)) := by
  have hlen : ∀ (cells : List (Nat × Nat)) (b0 : Board),
      (cells.foldl (mergeStep px py color) b0).length = b0.length := by
    intro cells
    induction cells with
    | nil => intro b0; rfl
    | cons p rest ih =>
      intro b0
      rw [List.foldl_cons, ih, mergeStep_length]
  have hrows : ∀ (cells : List (Nat × Nat)) (b0 : Board),
      (∀ row ∈ b0, row.length = 10) →
      ∀ row ∈ cells.foldl (mergeStep px py color) b0, row.length = 10 := by
    intro cells
    induction cells with
    | nil => intro b0 h; exact h
    | cons p rest ih =>
      intro b0 h
      rw [List.foldl_cons]
      exact ih _ (mergeStep_rows px py color b0 p h)
  have hexiff : ∀ r c : Nat,
      ((∃ q ∈ shapeCells shape,
          py + (q.1 : Int) = (r : Int) ∧ px + (q.2 : Int) = (c : Int)) ↔
        (∃ dy dx : Nat, shapeHasCell shape dy dx ∧
          py + (dy : Int) = (r : Int) ∧ px + (dx : Int) = (c : Int))) := by
    intro r c
    constructor
    · rintro ⟨⟨dy, dx⟩, hq, h1, h2⟩
      exact ⟨dy, dx, mem_shapeCells.mp hq, h1, h2⟩
    · rintro ⟨dy, dx, hcell, h1, h2⟩
      exact ⟨(dy, dx), mem_shapeCells.mpr hcell, h1, h2⟩
  refine ⟨by rw [mergePiece, hlen, h20], hrows _ _ hw, ?_⟩
  intro r c hr hc
  have hchar := foldMerge_natCell px py color (shapeCells shape) b h20 hw r c hr hc
  rw [mergePiece, cellAt_natCast, cellAt_natCast, hchar]
  constructor
  · intro hex
    rw [if_pos ((hexiff r c).mpr hex)]
  · intro hnex
    rw [if_neg (fun h => hnex ((hexiff r c).mp h))]

/-- Witness for C9 at a concrete board, shape and anchor. -/
theorem mergePiece_spec_witness :
    (createEmptyBoard.length = 20 ∧ ∀ row ∈ createEmptyBoard, row.length = 10)
  ∧ (mergePiece createEmptyBoard (PIECES .O) 4 0 (COLORS .O)).length = 20 := by
  have h20 : createEmptyBoard.length = 20 := by decide
  have hw : ∀ row ∈ createEmptyBoard, row.length = 10 := by decide
  exact ⟨⟨h20, hw⟩,
    (mergePiece_spec createEmptyBoard (PIECES .O) 4 0 (COLORS .O) h20 hw).1⟩

/-! ### Rotation as a matrix operation -/

/-- C4 (failing input): on every canonical piece shape four clockwise
rotations return the original shape bit-for-bit, but one clockwise
rotation followed by one counter-clockwise rotation of the L shape yields
its vertical mirror, not the original: the counter-clockwise branch of
`rotateMatrix` reverses the list of columns it just built from reversed
column indices, which amounts to a plain transpose. -/
theorem rotateMatrix_cw_ccw_failing :
    (∀ n : PieceName,
      rotateMatrix (rotateMatrix (rotateMatrix (rotateMatrix (PIECES n) 1) 1) 1) 1 =
        PIECES n)
  ∧ rotateMatrix (rotateMatrix (PIECES .L) 1) (-1) = [[1, 0, 0], [1, 1, 1]]
  ∧ rotateMatrix (rotateMatrix (PIECES .L) 1) (-1) ≠ PIECES .L := by
  decide

/-! ### The game-over check of the locking branch -/

/-- C1 (failing input): at `lockState` the downward probe collides, the
piece is merged at its current position, and on the board as it stands
immediately after this lock the next piece's shape collides at the spawn
anchor `(3, 0)` — yet `tick` (and likewise `hardDrop`) leaves the
game-over flag false, because the spawn test reads the pre-lock `board`
captured by the React closure instead of the just-merged board. -/
theorem tick_spawnCheck_usesPreLockBoard :
    collision lockState.board (PIECES .O) 4 1 = true
  ∧ (tick R0 lockState).board = mergePiece lockState.board (PIECES .O) 4 0 (COLORS .O)
  ∧ collision (mergePiece lockState.board (PIECES .O) 4 0 (COLORS .O)) (PIECES .O) 3 0 = true
  ∧ (tick R0 lockState).gameOver = false
  ∧ (hardDrop R0 lockState).gameOver = false := by
  decide

/-! ### Mutating operations while game over -/

/-- C2: once the game-over flag is set, `move`, `rotate`, `hold`,
`hardDrop` and the timer-invoked `tick` (the fall-timer effect returns
early without scheduling when the flag is set) leave the entire engine
state — board, score, current piece, position, hold slot, next piece —
unchanged. -/
theorem gameOver_mutators_noop (R : Nat → Nat → Nat) (st : GameState) (dx dir : Int)
    (h : st.gameOver = true) :
    move st dx = st ∧ rotate st dir = st ∧ hold R st = st ∧ hardDrop R st = st ∧
      timerTick R st = st := by
  refine ⟨?_, ?_, ?_, ?_, ?_⟩
  · simp [move, h]
  · simp [rotate, h]
  · simp [hold, h]
  · simp [hardDrop, h]
  · simp [timerTick, h]

/-- Witness for C2 at a concrete game-over state. -/
theorem gameOver_mutators_noop_witness :
    overState.gameOver = true ∧
      (move overState 1 = overState ∧ rotate overState 1 = overState ∧
        hold R0 overState = overState ∧ hardDrop R0 overState = overState ∧
        timerTick R0 overState = overState) :=
  ⟨rfl, gameOver_mutators_noop R0 overState 1 1 rfl⟩

/-! ### Rotation with wall kicks -/

theorem tryKicks_all_collide (st : GameState) (shape : Shape) (t : Int) :
    ∀ ks, (∀ k ∈ ks, collision st.board shape (st.pos.x + k.1) (st.pos.y - k.2) = true) →
      tryKicks st shape t ks = st
  | [], _ => rfl
  | k :: rest, h => by
    simp only [tryKicks]
    rw [if_pos (h k (List.mem_cons_self k rest))]
    exact tryKicks_all_collide st shape t rest
      (fun k' hk' => h k' (List.mem_cons_of_mem k hk'))

theorem tryKicks_first_success (st : GameState) (shape : Shape) (t : Int) :
    ∀ ks1 (k : Int × Int) ks2,
      (∀ k' ∈ ks1, collision st.board shape (st.pos.x + k'.1) (st.pos.y - k'.2) = true) →
      collision st.board shape (st.pos.x + k.1) (st.pos.y - k.2) = false →
      tryKicks st shape t (ks1 ++ k :: ks2) =
        { st with
          currentPiece := { st.currentPiece with shape := shape }
          pos := ⟨st.pos.x + k.1, st.pos.y - k.2, t⟩ }
  | [], k, ks2, _, hk => by
    simp only [List.nil_append, tryKicks]
    rw [if_neg (by simp [hk])]
  | k1 :: ks1, k, ks2, h1, hk => by
    simp only [List.cons_append, tryKicks]
    rw [if_pos (h1 k1 (List.mem_cons_self k1 ks1))]
    exact tryKicks_first_success st shape t ks1 k ks2
      (fun k' hk' => h1 k' (List.mem_cons_of_mem k1 hk')) hk

/-- C3: `rotate(dir)` is a no-op when the game is over or for the `O`
piece; otherwise, with `rotatedShape` the rotated matrix,
`to = (from + dir + 4) mod 4` and the kick-candidate list looked up for
the transition (defaulting to `[(0,0)]`), it commits the first candidate
`(kx, ky)` in list order whose position `(x + kx, y - ky)` does not
collide — updating shape, position and rotation index together — and
leaves the state entirely unchanged when every candidate collides. -/
theorem rotate_spec (st : GameState) (dir : Int) :
    (st.gameOver = true → rotate st dir = st)
  ∧ (st.currentPiece.name = .O → rotate st dir = st)
  ∧ (st.gameOver = false → st.currentPiece.name ≠ .O →
      ((∀ k ∈ rotateKicks st dir,
          collision st.board (rotateMatrix st.currentPiece.shape dir)
            (st.pos.x + k.1) (st.pos.y - k.2) = true) →
        rotate st dir = st)
      ∧ (∀ ks1 (k : Int × Int) ks2, rotateKicks st dir = ks1 ++ k :: ks2 →
          (∀ k' ∈ ks1,
            collision st.board (rotateMatrix st.currentPiece.shape dir)
              (st.pos.x + k'.1) (st.pos.y - k'.2) = true) →
          collision st.board (rotateMatrix st.currentPiece.shape dir)
            (st.pos.x + k.1) (st.pos.y - k.2) = false →
          rotate st dir =
            { st with
              currentPiece := { st.currentPiece with
                shape := rotateMatrix st.currentPiece.shape dir }
              pos := ⟨st.pos.x + k.1, st.pos.y - k.2,
                (st.pos.rotation + dir + 4) % 4⟩ })) := by
  refine ⟨?_, ?_, ?_⟩
  · intro h
    simp [rotate, h]
  · intro h
    simp [rotate, h]
  · intro hg hO
    constructor
    · intro hall
      rw [rotate, if_neg (by simp [hg]), if_neg hO]
      exact tryKicks_all_collide st _ _ _ hall
    · intro ks1 k ks2 hks h1 hk
      rw [rotate, if_neg (by simp [hg]), if_neg hO, hks]
      exact tryKicks_first_success st _ _ ks1 k ks2 h1 hk

/-- Witness for C3: at `spawnState` the very first kick candidate `(0,0)`
succeeds and is committed. -/
theorem rotate_spec_witness :
    spawnState.gameOver = false ∧ spawnState.currentPiece.name ≠ .O ∧
    rotateKicks spawnState 1 =
      [] ++ ((0, 0) : Int × Int) :: [(-1, 0), (-1, 1), (0, -2), (-1, -2)] ∧
    collision spawnState.board (rotateMatrix spawnState.currentPiece.shape 1)
      (spawnState.pos.x + 0) (spawnState.pos.y - 0) = false ∧
    rotate spawnState 1 =
      { spawnState with
        currentPiece := { spawnState.currentPiece with
          shape := rotateMatrix spawnState.currentPiece.shape 1 }
        pos := ⟨spawnState.pos.x + 0, spawnState.pos.y - 0,
          (spawnState.pos.rotation + 1 + 4) % 4⟩ } := by
  refine ⟨rfl, by decide, by decide, by decide, ?_⟩
  exact ((rotate_spec spawnState 1).2.2 rfl (by decide)).2
    [] ((0, 0) : Int × Int) [(-1, 0), (-1, 1), (0, -2), (-1, -2)] (by decide)
    (by intro k' hk'; cases hk') (by decide)

/-! ### The 7-bag piece supply -/

theorem cons_set_perm {α : Type} :
    ∀ (t : List α) (m : Nat) (a b : α), t.get? m = some b →
      List.Perm (b :: t.set m a) (a :: t)
  | [], m, _, _, h => by simp at h
  | c :: t, 0, a, b, h => by
    obtain rfl : c = b := by simpa using h
    simpa using List.Perm.swap a c t
  | c :: t, m + 1, a, b, h => by
    have h' : t.get? m = some b := by simpa using h
    have ih := cons_set_perm t m a b h'
    exact ((List.Perm.swap c b (t.set m a)).trans (ih.cons c)).trans
      (List.Perm.swap a c t)

theorem set_set_perm {α : Type} :
    ∀ (l : List α) (i j : Nat) (a b : α), l.get? i = some a → l.get? j = some b →
      List.Perm ((l.set i b).set j a) l
  | [], _, _, _, _, hi, _ => by simp at hi
  | c :: t, 0, 0, a, b, hi, hj => by
    obtain rfl : c = a := by simpa using hi
    obtain rfl : c = b := by simpa using hj
    simp
  | c :: t, 0, j + 1, a, b, hi, hj => by
    obtain rfl : c = a := by simpa using hi
    have hj' : t.get? j = some b := by simpa using hj
    simpa using cons_set_perm t j c b hj'
  | c :: t, i + 1, 0, a, b, hi, hj => by
    obtain rfl : c = b := by simpa using hj
    have hi' : t.get? i = some a := by simpa using hi
    simpa using cons_set_perm t i c a hi'
  | c :: t, i + 1, j + 1, a, b, hi, hj => by
    have hi' : t.get? i = some a := by simpa using hi
    have hj' : t.get? j = some b := by simpa using hj
    simpa using (set_set_perm t i j a b hi' hj').cons c

theorem listSwap_perm {α : Type} (l : List α) (i j : Nat) :
    List.Perm (listSwap l i j) l := by
  unfold listSwap
  split
  · rename_i a b hi hj
    exact set_set_perm l i j a b hi hj
  · exact List.Perm.refl l

theorem fyAux_perm (r : Nat → Nat) :
    ∀ (k : Nat) (l : List PieceName), List.Perm (fyAux r k l) l
  | 0, l => List.Perm.refl l
  | Nat.succ k, l =>
    (fyAux_perm r k _).trans (listSwap_perm l (k + 1) (r (k + 1) % (k + 2)))

theorem shufflePieces_perm (r : Nat → Nat) (l : List PieceName) :
    List.Perm (shufflePieces r l) l :=
  fyAux_perm r (l.length - 1) l

theorem drawNames_exact (R : Nat → Nat → Nat) :
    ∀ (n : Nat) (l : List PieceName) (k : Nat), l.length = n →
      drawNames R n ⟨l, k⟩ = (l.reverse, ⟨[], k⟩)
  | 0, l, k, hlen => by
    obtain rfl := List.length_eq_zero.mp hlen
    rfl
  | n + 1, l, k, hlen => by
    rcases List.eq_nil_or_concat l with rfl | ⟨l', x, hx⟩
    · simp at hlen
    · rw [List.concat_eq_append] at hx
      subst hx
      have hl' : l'.length = n := by
        rw [List.length_append] at hlen
        simpa using hlen
      have hne : (l' ++ [x]).isEmpty = false := by
        rcases l' with _ | _ <;> rfl
      simp only [drawNames, getNextPiece, hne, Bool.false_eq_true, if_false,
        List.getLast?_concat, Option.getD_some, List.dropLast_concat]
      rw [drawNames_exact R n l' k hl']
      simp [mkPiece]

theorem drawNames_succ (R : Nat → Nat → Nat) (n : Nat) (bg : Bag) :
    drawNames R (n + 1) bg =
      ((getNextPiece R bg).1.name :: (drawNames R n (getNextPiece R bg).2).1,
        (drawNames R n (getNextPiece R bg).2).2) := rfl

theorem drawNames_refill (R : Nat → Nat → Nat) (k : Nat) :
    drawNames R 7 ⟨[], k⟩ =
      ((shufflePieces (R k) allPieceNames).reverse, ⟨[], k + 1⟩) := by
  have hlen : (shufflePieces (R k) allPieceNames).length = 7 :=
    (shufflePieces_perm (R k) allPieceNames).length_eq
  rcases List.eq_nil_or_concat (shufflePieces (R k) allPieceNames) with hnil | ⟨l', x, hx⟩
  · rw [hnil] at hlen
    simp at hlen
  · rw [List.concat_eq_append] at hx
    have hl' : l'.length = 6 := by
      rw [hx, List.length_append] at hlen
      simpa using hlen
    rw [(by norm_num : (7 : Nat) = 6 + 1), drawNames_succ]
    have hg : getNextPiece R ⟨[], k⟩ =
        (mkPiece ((shufflePieces (R k) allPieceNames).getLast?.getD .I),
          ⟨(shufflePieces (R k) allPieceNames).dropLast, k + 1⟩) := rfl
    rw [hg, hx, List.getLast?_concat, List.dropLast_concat]
    rw [drawNames_exact R 6 l' (k + 1) hl']
    simp [mkPiece]

theorem drawNames_add (R : Nat → Nat → Nat) :
    ∀ (m n : Nat) (bg : Bag),
      drawNames R (m + n) bg =
        ((drawNames R m bg).1 ++ (drawNames R n (drawNames R m bg).2).1,
          (drawNames R n (drawNames R m bg).2).2)
  | 0, n, bg => by simp [drawNames]
  | m + 1, n, bg => by
    rw [Nat.succ_add]
    simp only [drawNames]
    rw [drawNames_add R m n (getNextPiece R bg).2]
    simp

theorem drawNames_bag_after (R : Nat → Nat → Nat) :
    ∀ n : Nat, (drawNames R (7 * n) ⟨[], 0⟩).2 = ⟨[], n⟩ ∧
      (drawNames R (7 * n) ⟨[], 0⟩).1.length = 7 * n
  | 0 => ⟨rfl, rfl⟩
  | n + 1 => by
    have ih := drawNames_bag_after R n
    have h7 : 7 * (n + 1) = 7 * n + 7 := by ring
    rw [h7, drawNames_add R (7 * n) 7 ⟨[], 0⟩, ih.1, drawNames_refill R n]
    refine ⟨rfl, ?_⟩
    simp only [List.length_append, ih.2, List.length_reverse,
      (shufflePieces_perm (R n) allPieceNames).length_eq]
    rfl

/-- C7: for every random oracle and every bag index `n`, the 7 draws of
the `n`-th refill run (draws `7n` to `7n + 6` from a supply started with
an empty bag) form a permutation of the 7 piece names — each name appears
exactly once in the run. -/
theorem bag_runs_perm (R : Nat → Nat → Nat) (n : Nat) :
    List.Perm ((drawNames R (7 * n + 7) ⟨[], 0⟩).1.drop (7 * n)) allPieceNames
  ∧ ∀ p : PieceName,
      ((drawNames R (7 * n + 7) ⟨[], 0⟩).1.drop (7 * n)).count p = 1 := by
  have hb := drawNames_bag_after R n
  have hperm : List.Perm ((drawNames R (7 * n + 7) ⟨[], 0⟩).1.drop (7 * n))
      allPieceNames := by
    rw [drawNames_add R (7 * n) 7 ⟨[], 0⟩, hb.1, drawNames_refill R n]
    show (((drawNames R (7 * n) ⟨[], 0⟩).1 ++
        (shufflePieces (R n) allPieceNames).reverse).drop (7 * n)).Perm allPieceNames
    rw [List.drop_left' hb.2]
    exact (List.reverse_perm _).trans (shufflePieces_perm (R n) allPieceNames)
  refine ⟨hperm, fun p => ?_⟩
  rw [hperm.count_eq]
  rcases p with _ | _ | _ | _ | _ | _ | _ <;> rfl

/-! ### Ghost projection -/

theorem collide_at_floor {b : Board} {shape : Shape} {x : Int}
    (hne : shapeCells shape ≠ []) {y : Int} (hy : (19 : Int) ≤ y) :
    collision b shape x (y + 1) = true := by
  obtain ⟨p, hp⟩ := List.exists_mem_of_ne_nil _ hne
  rcases p with ⟨dy, dx⟩
  apply collision_eq_true_iff.mpr
  refine ⟨dy, dx, mem_shapeCells.mp hp, ?_⟩
  unfold cellBlocked
  refine Or.inr (Or.inr (Or.inl ?_))
  have hdy : (0 : Int) ≤ (dy : Int) := Int.natCast_nonneg dy
  have hBH : ((BOARD_HEIGHT : Nat) : Int) = 20 := rfl
  omega

theorem ghostYAux_search (b : Board) (shape : Shape) (x : Int) :
    ∀ (fuel : Nat) (y0 : Int),
      (∃ k : Nat, k < fuel ∧ collision b shape x (y0 + (k : Int) + 1) = true) →
      ∃ yr : Int, ghostYAux b shape x fuel y0 = some yr ∧
        collision b shape x (yr + 1) = true ∧ y0 ≤ yr ∧
        ∀ y : Int, y0 ≤ y → y < yr → collision b shape x (y + 1) = false
  | 0, y0, h => by
    obtain ⟨k, hk, -⟩ := h
    omega
  | fuel + 1, y0, h => by
    by_cases hc : collision b shape x (y0 + 1) = true
    · refine ⟨y0, by simp [ghostYAux, hc], hc, le_refl y0, fun y hy1 hy2 => ?_⟩
      omega
    · have hcf : collision b shape x (y0 + 1) = false := by
        rcases Bool.eq_false_or_eq_true (collision b shape x (y0 + 1)) with h' | h'
        · exact absurd h' hc
        · exact h'
      obtain ⟨k, hk, hcol⟩ := h
      have hk0 : k ≠ 0 := by
        rintro rfl
        rw [show y0 + ((0 : Nat) : Int) + 1 = y0 + 1 by norm_num] at hcol
        exact hc hcol
      obtain ⟨k', rfl⟩ := Nat.exists_eq_succ_of_ne_zero hk0
      have hex : ∃ j : Nat, j < fuel ∧
          collision b shape x ((y0 + 1) + (j : Int) + 1) = true := by
        refine ⟨k', by omega, ?_⟩
        rw [show (y0 + 1) + (k' : Int) + 1 = y0 + ((k' + 1 : Nat) : Int) + 1 by
          push_cast; ring]
        exact hcol
      obtain ⟨yr, hyr, hcolr, hler, hmin⟩ := ghostYAux_search b shape x fuel (y0 + 1) hex
      refine ⟨yr, ?_, hcolr, by omega, ?_⟩
      · simp only [ghostYAux, hc, if_false]
        exact hyr
      · intro y hy1 hy2
        rcases eq_or_lt_of_le hy1 with rfl | hlt
        · exact hcf
        · exact hmin y (by omega) hy2

theorem ghostY_fuel_reaches (b : Board) (shape : Shape) (x : Int)
    (hne : shapeCells shape ≠ []) (y0 : Int) :
    ∃ k : Nat, k < ghostFuel y0 ∧ collision b shape x (y0 + (k : Int) + 1) = true := by
  have hBH : ((BOARD_HEIGHT : Nat) : Int) = 20 := rfl
  by_cases h : (19 : Int) ≤ y0
  · refine ⟨0, by unfold ghostFuel; omega, ?_⟩
    rw [show y0 + ((0 : Nat) : Int) + 1 = y0 + 1 by norm_num]
    exact collide_at_floor hne h
  · refine ⟨(19 - y0).toNat, by unfold ghostFuel; omega, ?_⟩
    rw [show y0 + (((19 - y0).toNat : Nat) : Int) + 1 = (19 : Int) + 1 by omega]
    exact collide_at_floor hne (le_refl (19 : Int))

/-- C10: for a current shape with at least one set cell, the descent loop
of `ghostY` exits within the stated fuel and returns the least row
`yr ≥ pos.y` at which the downward probe `collision(shape, x, yr + 1)`
fires (the engine state being read, never written, `ghostY` is a pure
function of it); the non-empty-shape precondition is necessary: for a
shape with no set cell the collision probe is false at every row, and the
loop body never exits regardless of the fuel supplied. -/
theorem ghostY_spec (st : GameState) (hne : shapeCells st.currentPiece.shape ≠ []) :
    ghostYAux st.board st.currentPiece.shape st.pos.x (ghostFuel st.pos.y) st.pos.y =
      some (ghostY st)
  ∧ collision st.board st.currentPiece.shape st.pos.x (ghostY st + 1) = true
  ∧ st.pos.y ≤ ghostY st
  ∧ (∀ y : Int, st.pos.y ≤ y → y < ghostY st →
      collision st.board st.currentPiece.shape st.pos.x (y + 1) = false)
  ∧ (∀ (b : Board) (shape2 : Shape) (x : Int), shapeCells shape2 = [] →
      ∀ (fuel : Nat) (y0 : Int), ghostYAux b shape2 x fuel y0 = none) := by
  obtain ⟨yr, hyr, hcol, hle, hmin⟩ :=
    ghostYAux_search st.board st.currentPiece.shape st.pos.x (ghostFuel st.pos.y) st.pos.y
      (ghostY_fuel_reaches st.board st.currentPiece.shape st.pos.x hne st.pos.y)
  have hg : ghostY st = yr := by
    rw [ghostY, hyr]
    rfl
  rw [hg]
  refine ⟨hyr, hcol, hle, hmin, ?_⟩
  intro b shape2 x h0 fuel
  induction fuel with
  | zero => intro y0; rfl
  | succ n ih =>
    intro y0
    have hcf : collision b shape2 x (y0 + 1) = false := by
      unfold collision
      rw [h0]
      rfl
    simp only [ghostYAux, hcf, Bool.false_eq_true, if_false]
    exact ih (y0 + 1)

/-- Witness for C10 at a concrete state. -/
theorem ghostY_spec_witness :
    shapeCells spawnState.currentPiece.shape ≠ [] ∧
      collision spawnState.board spawnState.currentPiece.shape spawnState.pos.x
        (ghostY spawnState + 1) = true :=
  ⟨by decide, (ghostY_spec spawnState (by decide)).2.1⟩

/-! ### Hard drop against iterated ticks -/

theorem tick_no_lock (R : Nat → Nat → Nat) (st : GameState)
    (h : collision st.board st.currentPiece.shape st.pos.x (st.pos.y + 1) = false) :
    tick R st = { st with pos := { st.pos with y := st.pos.y + 1 } } := by
  simp only [tick]
  rw [if_neg (by simp [h])]

theorem ghostY_at_lock (st : GameState)
    (hc : collision st.board st.currentPiece.shape st.pos.x (st.pos.y + 1) = true) :
    ghostY st = st.pos.y := by
  rw [ghostY]
  have hf : ghostFuel st.pos.y = (((BOARD_HEIGHT : Int) - st.pos.y).toNat + 1) + 1 := rfl
  rw [hf]
  simp only [ghostYAux, hc, if_true, Option.getD_some]

theorem tick_lock_eq_hardDrop (R : Nat → Nat → Nat) (st : GameState)
    (hg : st.gameOver = false)
    (hc : collision st.board st.currentPiece.shape st.pos.x (st.pos.y + 1) = true) :
    tick R st = hardDrop R st := by
  have hgl := ghostY_at_lock st hc
  simp [tick, hardDrop, hc, hg, hgl]

theorem ghostY_step (st : GameState) (hne : shapeCells st.currentPiece.shape ≠ [])
    (h : collision st.board st.currentPiece.shape st.pos.x (st.pos.y + 1) = false) :
    ghostY { st with pos := { st.pos with y := st.pos.y + 1 } } = ghostY st := by
  obtain ⟨-, hcol1, hle1, hmin1, -⟩ := ghostY_spec st hne
  obtain ⟨-, hcol2, hle2, hmin2, -⟩ :=
    ghostY_spec { st with pos := { st.pos with y := st.pos.y + 1 } } hne
  have hcol2' : collision st.board st.currentPiece.shape st.pos.x
      (ghostY { st with pos := { st.pos with y := st.pos.y + 1 } } + 1) = true := hcol2
  have hle2' : st.pos.y + 1 ≤ ghostY { st with pos := { st.pos with y := st.pos.y + 1 } } :=
    hle2
  have hmin2' : ∀ y : Int, st.pos.y + 1 ≤ y →
      y < ghostY { st with pos := { st.pos with y := st.pos.y + 1 } } →
      collision st.board st.currentPiece.shape st.pos.x (y + 1) = false := hmin2
  have hne1 : ghostY st ≠ st.pos.y := by
    intro heq
    rw [heq, h] at hcol1
    cases hcol1
  have hA : ¬ (ghostY { st with pos := { st.pos with y := st.pos.y + 1 } } < ghostY st) := by
    intro hlt
    have hfalse := hmin1 _ (by omega) hlt
    rw [hfalse] at hcol2'
    cases hcol2'
  have hB : ¬ (ghostY st < ghostY { st with pos := { st.pos with y := st.pos.y + 1 } }) := by
    intro hlt
    have hfalse := hmin2' (ghostY st) (by omega) hlt
    rw [hfalse] at hcol1
    cases hcol1
  omega

theorem applyClear_pos (st : GameState) (p : Position) (cl : Board × List Nat) :
    applyClear { st with pos := p } cl = { applyClear st cl with pos := p } := by
  unfold applyClear
  split <;> rfl

theorem hardDrop_shift (R : Nat → Nat → Nat) (st : GameState)
    (hg : st.gameOver = false) (hne : shapeCells st.currentPiece.shape ≠ [])
    (hc : collision st.board st.currentPiece.shape st.pos.x (st.pos.y + 1) = false) :
    eqExceptPos (hardDrop R st)
        (hardDrop R { st with pos := { st.pos with y := st.pos.y + 1 } })
  ∧ (collision st.board st.nextPiece.shape 3 0 = false →
      hardDrop R st = hardDrop R { st with pos := { st.pos with y := st.pos.y + 1 } }) := by
  have hgh := ghostY_step st hne hc
  simp only [hg] at hgh
  by_cases hs : collision st.board st.nextPiece.shape 3 0 = true
  · constructor
    · simp [eqExceptPos, hardDrop, applyClear, apply_ite, hg, hs, hgh]
    · intro hfree
      rw [hfree] at hs
      cases hs
  · constructor
    · simp [eqExceptPos, hardDrop, applyClear, apply_ite, hg, hs, hgh]
    · intro hfree
      simp [hardDrop, applyClear, apply_ite, hg, hs, hgh]

theorem hardDrop_ticks_aux (R : Nat → Nat → Nat) :
    ∀ (k : Nat) (st : GameState), st.gameOver = false →
      shapeCells st.currentPiece.shape ≠ [] →
      (ghostY st - st.pos.y).toNat = k →
      eqExceptPos (hardDrop R st) ((tick R)^[k + 1] st) ∧
        (collision st.board st.nextPiece.shape 3 0 = false →
          hardDrop R st = (tick R)^[k + 1] st)
  | 0, st, hg, hne, hk => by
    have hc : collision st.board st.currentPiece.shape st.pos.x (st.pos.y + 1) = true := by
      obtain ⟨-, hcol, hle, -, -⟩ := ghostY_spec st hne
      rcases eq_or_lt_of_le hle with heq | hlt
      · rw [heq]
        exact hcol
      · exfalso
        omega
    have heq := tick_lock_eq_hardDrop R st hg hc
    rw [Function.iterate_one, ← heq]
    exact ⟨rfl, fun _ => rfl⟩
  | k + 1, st, hg, hne, hk => by
    have hc : collision st.board st.currentPiece.shape st.pos.x (st.pos.y + 1) = false := by
      rcases Bool.eq_false_or_eq_true
          (collision st.board st.currentPiece.shape st.pos.x (st.pos.y + 1)) with h' | h'
      · have := ghostY_at_lock st h'
        omega
      · exact h'
    have htick := tick_no_lock R st hc
    have hgh := ghostY_step st hne hc
    have hglt : st.pos.y < ghostY st := by
      obtain ⟨-, hcol, hle, -, -⟩ := ghostY_spec st hne
      rcases eq_or_lt_of_le hle with heq | hlt
      · rw [← heq, hc] at hcol
        cases hcol
      · exact hlt
    have hk' : (ghostY { st with pos := { st.pos with y := st.pos.y + 1 } } -
        ({ st with pos := { st.pos with y := st.pos.y + 1 } } : GameState).pos.y).toNat
          = k := by
      show (ghostY { st with pos := { st.pos with y := st.pos.y + 1 } } -
        (st.pos.y + 1)).toNat = k
      rw [hgh]
      omega
    have ih := hardDrop_ticks_aux R k { st with pos := { st.pos with y := st.pos.y + 1 } }
      hg hne hk'
    have hshift := hardDrop_shift R st hg hne hc
    have hiter : (tick R)^[k + 1 + 1] st =
        (tick R)^[k + 1] { st with pos := { st.pos with y := st.pos.y + 1 } } := by
      rw [Function.iterate_succ_apply, htick]
    rw [hiter]
    constructor
    · exact hshift.1.trans ih.1
    · intro hfree
      rw [hshift.2 hfree]
      exact ih.2 hfree

/-- C8: from a state that is not game over and whose current shape has a
set cell, `hardDrop` produces the same engine state as iterating `tick`
until the piece locks — one tick per descent row plus the locking tick —
on every component except the live position (which both reset to the
spawn anchor whenever the spawn succeeds, so that when the spawn check
passes the two states agree completely): hard drop merges at the ghost
row, runs the same clear / spawn / game-over sequence as the locking
branch of `tick`, and resets the hold lock. -/
theorem hardDrop_eq_ticks (R : Nat → Nat → Nat) (st : GameState)
    (hg : st.gameOver = false) (hne : shapeCells st.currentPiece.shape ≠ []) :
    eqExceptPos (hardDrop R st) ((tick R)^[(ghostY st - st.pos.y).toNat + 1] st)
  ∧ (collision st.board st.nextPiece.shape 3 0 = false →
      hardDrop R st = (tick R)^[(ghostY st - st.pos.y).toNat + 1] st) :=
  hardDrop_ticks_aux R ((ghostY st - st.pos.y).toNat) st hg hne rfl

/-- Witness for C8 at a concrete state (an `O` piece over an empty
board). -/
theorem hardDrop_eq_ticks_witness :
    spawnState.gameOver = false ∧ shapeCells spawnState.currentPiece.shape ≠ [] ∧
      eqExceptPos (hardDrop R0 spawnState)
        ((tick R0)^[(ghostY spawnState - spawnState.pos.y).toNat + 1] spawnState) :=
  ⟨rfl, by decide, (hardDrop_eq_ticks R0 spawnState rfl (by decide)).1⟩

end Tetroidz
